import Mathlib

/-
Verification development for the MADDPG-family multi-agent RL core
(`marl/agents/ddpg.py`, `marl/agents/ddpg_moa.py`,
`marl/algorithms/maddpg/utils.py`).

The Python code is shallowly embedded: tensors are abstracted to values of
a type parameter (the code under study never inspects tensor contents, it
only routes them by string keys), Python dicts become insertion-ordered
association lists with overwrite-in-place update semantics, and the string
operations the code relies on (`in`, `startswith`, `replace`, `split`) are
re-implemented structurally on character lists so that everything reduces
by computation.
-/

set_option autoImplicit false

namespace MarlSpec

/-! ## String utilities mirroring the Python `str` operations used -/

/-- Python `pat in s` (substring containment) on character lists. -/
def charsContain : List Char → List Char → Bool
  | [], pat => pat.isEmpty
  | c :: rest, pat => pat.isPrefixOf (c :: rest) || charsContain rest pat

/-- Python `pat in s` on strings. -/
def strContains (s pat : String) : Bool :=
  charsContain s.data pat.data

/-- Python `s.startswith(pre)`. -/
def strStarts (s pre : String) : Bool :=
  pre.data.isPrefixOf s.data

/-- Fuel-driven core of Python `s.replace(pat, rep)`: replaces all
non-overlapping occurrences left to right. -/
def charsReplace : Nat → List Char → List Char → List Char → List Char
  | 0, s, _, _ => s
  | _ + 1, [], _, _ => []
  | fuel + 1, c :: rest, pat, rep =>
    if !pat.isEmpty && pat.isPrefixOf (c :: rest) then
      rep ++ charsReplace fuel ((c :: rest).drop pat.length) pat rep
    else
      c :: charsReplace fuel rest pat rep

/-- Python `s.replace(pat, rep)` (for the non-empty patterns the code uses). -/
def strReplace (s pat rep : String) : String :=
  ⟨charsReplace s.data.length s.data pat.data rep.data⟩

/-- Python `s.split("/")` on character lists. -/
def splitSlash : List Char → List (List Char)
  | [] => [[]]
  | c :: rest =>
    if c = '/' then [] :: splitSlash rest
    else
      match splitSlash rest with
      | [] => [[c]]
      | h :: t => (c :: h) :: t

/-- Python `key.split("/")[-1]`. -/
def lastComp (s : String) : String :=
  ⟨((splitSlash s.data).getLast?).getD []⟩

/-- Scheme key `"{f}/{i}"` (Python `"{}/{}".format(f, i)`). -/
def fkey (f : String) (i : Nat) : String :=
  f ++ "/" ++ Nat.repr i

/-- Scheme key `"{f}/{i}/{sub}"` (Python `"{}/{}/{}".format(f, i, sub)`). -/
def skey (f : String) (i : Nat) (sub : String) : String :=
  f ++ "/" ++ Nat.repr i ++ "/" ++ sub

/-! ## Gym spaces and the sample scheme (`get_sample_scheme`) -/

/-- A single gym space: `Box` carries its first shape entry, `Discrete`
its cardinality. -/
inductive GSpace where
  | box (dim : Nat)
  | disc (n : Nat)
deriving DecidableEq

/-- A per-agent space: a single space or a composite `gym.spaces.Dict`
(a fixed, ordered mapping of named sub-channels). -/
inductive AgSpace where
  | simple (sp : GSpace)
  | comp (spaces : List (String × GSpace))
deriving DecidableEq

/-- `sp.shape[0] if isinstance(sp, Box) else sp.n`. -/
def spDim : GSpace → Nat
  | .box d => d
  | .disc n => n

/-- Tensor dtype recorded in a scheme entry (`torch.float32` is the
implicit default, `done` uses `torch.uint8`). -/
inductive DType where
  | float32
  | uint8
deriving DecidableEq

/-- A scheme entry: `{"vshape": (dim,)}` with optional `"dtype"`. -/
structure SchemeEntry where
  vshape : Nat
  dtype : DType
deriving DecidableEq

/-- Observation part of one agent's scheme block.  Faithful to the source,
including the `"next_ob"` (sic) key emitted in the composite branch. -/
def agentSchemeObs (i : Nat) : AgSpace → List (String × SchemeEntry)
  | .comp l =>
    l.flatMap fun kv =>
      [(skey "obs" i kv.1, ⟨spDim kv.2, .float32⟩),
       (skey "next_ob" i kv.1, ⟨spDim kv.2, .float32⟩)]
  | .simple sp =>
    [(fkey "obs" i, ⟨spDim sp, .float32⟩),
     (fkey "next_obs" i, ⟨spDim sp, .float32⟩)]

/-- Action part of one agent's scheme block. -/
def agentSchemeAct (i : Nat) : AgSpace → List (String × SchemeEntry)
  | .comp l => l.map fun kv => (skey "action" i kv.1, ⟨spDim kv.2, .float32⟩)
  | .simple sp => [(fkey "action" i, ⟨spDim sp, .float32⟩)]

/-- `get_sample_scheme(n_agents, obs_spaces, act_spaces)` from
`marl/algorithms/maddpg/utils.py`. -/
def get_sample_scheme (n : Nat) (obs act : Nat → AgSpace) :
    List (String × SchemeEntry) :=
  (List.range n).flatMap fun i =>
    agentSchemeObs i (obs i) ++ agentSchemeAct i (act i) ++
    [(fkey "reward" i, ⟨1, .float32⟩), (fkey "done" i, ⟨1, .uint8⟩)]

/-! ## The batch dispatcher (`dispatch_samples`) -/

/-- `filter_key` nested in `dispatch_samples`: substring-containment match
over the scheme's keys, with `next_obs` keys excluded from a plain `obs`
query. -/
def filter_key (key : String) (schemeKeys : List String) : List String :=
  if strContains key "obs" && !strContains key "next_obs" then
    schemeKeys.filter fun k => strContains k key && !strContains k "next_obs"
  else
    schemeKeys.filter fun k => strContains k key

/-- One entry of the dispatcher output: a plain tensor, a sub-field
mapping, or the `IndexError` raised by `matched_keys[0]` on no match. -/
inductive Entry (α : Type) where
  | single (t : α)
  | dict (m : List (String × α))
  | indexError
deriving DecidableEq

/-- Sub-field pairs of a `dict` entry (empty otherwise). -/
def Entry.pairs {α : Type} : Entry α → List (String × α)
  | .dict m => m
  | _ => []

/-- Whether the entry is a composite (sub-field mapping) result. -/
def Entry.isDict {α : Type} : Entry α → Bool
  | .dict _ => true
  | _ => false

/-- Body of the per-field, per-agent loop of `dispatch_samples`:
`matched_keys = filter_key("{}/{}".format(f, i), scheme)`, then a dict of
`key.split("/")[-1] -> sample[key]` if more than one key matched, else the
single tensor. -/
def dispatchOne {α : Type} (sample : String → α) (schemeKeys : List String)
    (f : String) (i : Nat) : Entry α :=
  match filter_key (fkey f i) schemeKeys with
  | [] => .indexError
  | [k] => .single (sample k)
  | ks => .dict (ks.map fun k => (lastComp k, sample k))

/-- `dispatch_samples(sample, scheme, n_agents, fields)`: `sample` is the
keyed tensor container (a total lookup over the scheme's key space). -/
def dispatch_samples {α : Type} (sample : String → α)
    (schemeKeys : List String) (n : Nat) (fields : List String) :
    List (List (Entry α)) :=
  fields.map fun f => (List.range n).map fun i => dispatchOne sample schemeKeys f i

/-- The default `fields` argument of `dispatch_samples`. -/
def defaultFields : List String := ["obs", "action", "reward", "next_obs", "done"]

/-! ## Python dicts and the ensemble batch permutation (`switch_batch`) -/

/-- Python `d[k]` (`none` = `KeyError`). -/
def dget? {α : Type} : List (String × α) → String → Option α
  | [], _ => none
  | p :: rest, k => if p.1 = k then some p.2 else dget? rest k

/-- Python `d[k] = v`: overwrite in place keeping insertion order, else
append at the end. -/
def dset {α : Type} : List (String × α) → String → α → List (String × α)
  | [], k, v => [(k, v)]
  | p :: rest, k, v => if p.1 = k then (k, v) :: rest else p :: dset rest k v

/-- `filter_key` nested in `switch_batch`: `startswith` match over the
dict's keys, in insertion order. -/
def filterStarts {α : Type} (pre : String) (d : List (String × α)) : List String :=
  (d.map Prod.fst).filter fun k => strStarts k pre

/-- A `SampleBatch`/`EpisodeBatch` payload: scheme and keyed tensor data.
Scheme entries and tensors are abstract (`switch_batch` never inspects
them, it only moves them between keys). -/
structure Batch (σ τ : Type) where
  scheme : List (String × σ)
  data : List (String × τ)
deriving DecidableEq

/-- The container handed to `switch_batch`: a `SampleBatch`, an
`EpisodeBatch`, or some other object that still carries `.scheme`/`.data`
attributes but is neither (the unrecognized-format case). -/
inductive Container (σ τ : Type) where
  | sample (b : Batch σ τ)
  | episode (b : Batch σ τ)
  | other (b : Batch σ τ)
deriving DecidableEq

/-- One iteration of `switch_batch`'s `for f in fields` loop, acting on the
(scheme, target) state.  `bScheme` is the original (unmutated) `b.scheme`
the source reads shape descriptors from.  Reads of keys guaranteed present
are written `(dget? _ _).getD default`; the default is never produced on
the batches considered (a missing key would be a Python `KeyError`). -/
def switchField {σ τ : Type} [Inhabited σ] [Inhabited τ]
    (bScheme : List (String × σ)) (i : Nat) (f : String)
    (st : List (String × σ) × List (String × τ)) :
    List (String × σ) × List (String × τ) :=
  -- cache fields for agent i before overwriting
  let iKeys := filterStarts (fkey f i) st.2
  let iData := iKeys.map fun k => (dget? st.2 k).getD default
  let iScheme := iKeys.map fun k => (dget? bScheme k).getD default
  -- shift all fields from agent 0~i-1 to 1~i (idx = i-1, ..., 0)
  let st1 := ((List.range i).reverse).foldl
    (fun st2 idx =>
      let oldKeys := filterStarts (fkey f idx) st2.2
      oldKeys.foldl
        (fun st3 key =>
          let newKey := strReplace key (fkey f idx) (fkey f (idx + 1))
          (dset st3.1 newKey ((dget? bScheme key).getD default),
           dset st3.2 newKey ((dget? st3.2 key).getD default)))
        st2)
    st
  -- place fields from agent i to 0
  (iKeys.zip (iScheme.zip iData)).foldl
    (fun st4 kv =>
      let newIKey := strReplace kv.1 (fkey f i) (fkey f 0)
      (dset st4.1 newIKey kv.2.1, dset st4.2 newIKey kv.2.2))
    st1

/-- The shift applied to a batch payload over all five fields. -/
def switchCore {σ τ : Type} [Inhabited σ] [Inhabited τ] (b : Batch σ τ) (i : Nat) :
    Batch σ τ :=
  let st := defaultFields.foldl (fun st f => switchField b.scheme i f st)
    (b.scheme, b.data)
  ⟨st.1, st.2⟩

/-- `switch_batch(b, i)` from `marl/algorithms/maddpg/utils.py`.  Mirrors
the control flow: `i == 0` returns the input at once (before any format
check); an unrecognized container raises the explicit format error. -/
def switch_batch {σ τ : Type} [Inhabited σ] [Inhabited τ]
    (c : Container σ τ) (i : Nat) : Except String (Container σ τ) :=
  if i = 0 then .ok c
  else
    match c with
    | .sample b => .ok (.sample (switchCore b i))
    | .episode b => .ok (.episode (switchCore b i))
    | .other _ => .error "Error! Batch format not recognized..."

/-! ### Reference permutation for the amended `switch_batch` claim -/

/-- The agent whose data lands in slot `j` after rotating agent `i` to
slot 0: slot 0 holds agent `i`, slots `1..i` hold agents `0..i-1`, slots
beyond `i` are untouched. -/
def srcAgent (i j : Nat) : Nat :=
  if j = 0 then i else if j ≤ i then j - 1 else j

/-- Per-agent key block of a scheme over simple (non-composite) spaces. -/
def simpleKeys (j : Nat) : List String :=
  [fkey "obs" j, fkey "next_obs" j, fkey "action" j, fkey "reward" j, fkey "done" j]

/-- Per-agent key block with a composite (`move`/`comm`) action space. -/
def compActKeys (j : Nat) : List String :=
  [fkey "obs" j, fkey "next_obs" j, skey "action" j "move", skey "action" j "comm",
   fkey "reward" j, fkey "done" j]

/-- A batch whose scheme/data entries are arbitrary functions of the key,
over the key blocks `tmpl 0, ..., tmpl (n-1)`. -/
def mkBatch (tmpl : Nat → List String) (n : Nat) {σ τ : Type}
    (sv : String → σ) (dv : String → τ) : Batch σ τ :=
  ⟨(List.range n).flatMap fun j => (tmpl j).map fun k => (k, sv k),
   (List.range n).flatMap fun j => (tmpl j).map fun k => (k, dv k)⟩

/-- The rotated batch `switch_batch` should produce: same keys in the same
order, slot `j` carrying the entries of agent `srcAgent i j`. -/
def expBatch (tmpl : Nat → List String) (n i : Nat) {σ τ : Type}
    (sv : String → σ) (dv : String → τ) : Batch σ τ :=
  ⟨(List.range n).flatMap fun j =>
     ((tmpl j).zip (tmpl (srcAgent i j))).map fun p => (p.1, sv p.2),
   (List.range n).flatMap fun j =>
     ((tmpl j).zip (tmpl (srcAgent i j))).map fun p => (p.1, dv p.2)⟩

/-! ## The environment step of the two agent classes (continuous path)

Tensors are abstracted to integer rows (one batch element); the policy
output is the ordered dict of per-sub-channel logits rows.  The noise
vector is the single `OUNoise` sample shared by all sub-channels. -/

/-- `action.clamp(-1, 1)` on one component. -/
def clamp1 (x : Int) : Int := max (-1) (min 1 x)

/-- Broadcast add of a noise slice onto an action row of width
`a.length`: PyTorch adds a `(m,)` vector to a `(B, d)` tensor when `m = d`
(elementwise) or `m = 1` (broadcast); any other `m` raises a size-mismatch
error (`none`). -/
def addNoise (a ns : List Int) : Option (List Int) :=
  if ns.length = a.length then some (List.zipWith (· + ·) a ns)
  else if ns.length = 1 then some (a.map (· + ns.headI))
  else none

/-- `DDPGAgent.step`, continuous-action branch (`ddpg.py` lines 244-253):
each sub-channel takes the slice `noise[idx : idx+dim]` of the one noise
vector when exploring, `idx` advancing by the channel width; every channel
is clamped. -/
def ddpgStepContAux (noise : List Int) (explore : Bool) :
    Nat → List (String × List Int) → Option (List (String × List Int))
  | _, [] => some []
  | idx, (k, a) :: rest =>
    if explore then
      let dim := a.length
      match addNoise a ((noise.drop idx).take dim) with
      | none => none
      | some a' =>
        (ddpgStepContAux noise explore (idx + dim) rest).map
          fun r => (k, a'.map clamp1) :: r
    else
      (ddpgStepContAux noise explore idx rest).map
        fun r => (k, a.map clamp1) :: r

/-- `DDPGAgent.step` on the continuous policy output `logits`. -/
def ddpg_step_cont (logits : List (String × List Int)) (noise : List Int)
    (explore : Bool) : Option (List (String × List Int)) :=
  ddpgStepContAux noise explore 0 logits

/-- Modelled from the spec: the continuous `ActionSelector`
(`agents/action_selectors.py`, not under `src/`): treats the logits as the
deterministic mean action; `explore=True` adds the externally supplied
noise vector before clamping to `[-1, 1]`; otherwise returns the mean. -/
def selectContinuous (logits : List Int) (explore : Bool) (noise : List Int) :
    Option (List Int) :=
  if explore then (addNoise logits noise).map (List.map clamp1)
  else some logits

/-- `DDPGAgentMOA.step`, continuous-action branch (`ddpg_moa.py` lines
312-335): the source executes `noise = noise[idx:idx+dim]`, *reassigning*
`noise` to the slice, so the next sub-channel slices the already-sliced
vector; `idx` still advances by the channel width.  The clamp after the
selector call is the agent-side `action.clamp(-1, 1)`. -/
def moaStepContAux (explore : Bool) :
    Nat → List Int → List (String × List Int) → Option (List (String × List Int))
  | _, _, [] => some []
  | idx, noise, (k, a) :: rest =>
    let dim := a.length
    let noise' := (noise.drop idx).take dim
    match selectContinuous a explore noise' with
    | none => none
    | some act =>
      (moaStepContAux explore (idx + dim) noise' rest).map
        fun r => (k, act.map clamp1) :: r

/-- `DDPGAgentMOA.step` on the continuous policy output `logits`. -/
def moa_step_cont (logits : List (String × List Int)) (noise : List Int)
    (explore : Bool) : Option (List (String × List Int)) :=
  moaStepContAux explore 0 noise logits

/-! ## Recurrent rollout and truncation (`compute_action`/`compute_value`)

A tensor slice at one timestep is abstracted to its forward value plus a
flag recording whether it is still connected to the gradient graph;
`detach` clears the flag and keeps the value. -/

/-- Forward value + gradient-graph connectivity of a tensor slice. -/
structure TVal where
  v : Int
  g : Bool
deriving DecidableEq

/-- `Tensor.detach()`: same forward value, cut from the graph. -/
def TVal.detach (x : TVal) : TVal := ⟨x.v, false⟩

/-- A recurrent critic network: forward values are functions of the input
and hidden values; outputs are graph-connected whenever an input is. -/
structure RNet where
  fOut : Int → Int → Int
  fHid : Int → Int → Int

/-- One network step `critic(x_t, h_t) -> (q_t, h_{t+1})`. -/
def RNet.apply (net : RNet) (x h : TVal) : TVal × TVal :=
  (⟨net.fOut x.v h.v, x.g || h.g⟩, ⟨net.fHid x.v h.v, x.g || h.g⟩)

/-- A recurrent policy network with named output heads (sub-channels). -/
structure PolicyNet where
  outs : List (String × (Int → Int → Int))
  fHid : Int → Int → Int

/-- One policy step `pi(o_t, h_t) -> (logits_by_subchannel, h_{t+1})`. -/
def PolicyNet.apply (pi : PolicyNet) (x h : TVal) :
    List (String × TVal) × TVal :=
  (pi.outs.map fun kv => (kv.1, ⟨kv.2 x.v h.v, x.g || h.g⟩),
   ⟨pi.fHid x.v h.v, x.g || h.g⟩)

/-- Modelled from the spec: `rnn_forward_sequence` (`utils/networks.py`,
not under `src/`): rolls the network over the sequence threading the
hidden state, detaching the hidden state's gradient every
`truncate_steps` steps when `truncate_steps > 0` while its forward value
propagates unbroken.  Generic in the per-step output type. -/
def rnnSeqAux {O : Type} (step : TVal → TVal → O × TVal) (truncateSteps : Int) :
    Nat → TVal → List TVal → List O
  | _, _, [] => []
  | t, h, x :: xs =>
    let oh := step x h
    let h' := if truncateSteps > 0 && ((t : Int) + 1) % truncateSteps == 0
      then oh.2.detach else oh.2
    oh.1 :: rnnSeqAux step truncateSteps (t + 1) h' xs

/-- `rnn_forward_sequence(net, seq, h0, truncate_steps)`. -/
def rnn_forward_sequence {O : Type} (step : TVal → TVal → O × TVal)
    (xs : List TVal) (h0 : TVal) (truncateSteps : Int) : List O :=
  rnnSeqAux step truncateSteps 0 h0 xs

/-- The recurrent-agent state `compute_action`/`compute_value` read. -/
structure RecurrentAgent where
  policy : PolicyNet
  target_policy : PolicyNet
  critic : RNet
  target_critic : RNet
  discrete_action : Bool
  policy_hidden : TVal
  critic_hidden : TVal

/-- `DDPGAgent.compute_value` (recurrent branch): pick live or target
critic, hidden state from the argument or the stored one, roll out, then
stack/permute/reshape (order-preserving over the time axis). -/
def compute_value (ag : RecurrentAgent) (vfIn : List TVal) (hCritic : Option TVal)
    (target : Bool) (truncateSteps : Int) : List TVal :=
  let critic := if target then ag.target_critic else ag.critic
  let h := hCritic.getD ag.critic_hidden
  rnn_forward_sequence critic.apply vfIn h truncateSteps

/-- `DDPGAgent._soft_act`: identity for continuous actions; for discrete
actions `gumbel_softmax(x, hard=True)` (graph kept) when gradients are
required, else `onehot_from_logits(x)` (no graph).  The two samplers live
in `utils/misc.py` (not under `src/`) and are abstracted as value
transforms (two runs compared make the same sequence of sampler calls on
the same logits, hence see the same random draws). -/
def softAct (discrete requiresGrad : Bool) (gumbel onehot : Int → Int)
    (x : TVal) : TVal :=
  if !discrete then x
  else if requiresGrad then ⟨gumbel x.v, x.g⟩
  else ⟨onehot x.v, false⟩

/-- `DDPGAgent.compute_action` (recurrent branch): roll the policy out,
soften each timestep's logits, then stack per sub-channel into the
`dict of (B,T,A)` result.  Every rollout row carries exactly the policy's
output heads, so the `defaultdict` accumulation in the source groups into
head order. -/
def compute_action (ag : RecurrentAgent) (obs : List TVal) (hActor : Option TVal)
    (target : Bool) (requiresGrad : Bool) (truncateSteps : Int)
    (gumbel onehot : Int → Int) : List (String × List TVal) :=
  let pi := if target then ag.target_policy else ag.policy
  let h := hActor.getD ag.policy_hidden
  let seqLogits := rnn_forward_sequence pi.apply obs h truncateSteps
  let seqSoft := seqLogits.map fun row =>
    row.map fun kv =>
      (kv.1, softAct ag.discrete_action requiresGrad gumbel onehot kv.2)
  pi.outs.map fun kv0 => (kv0.1, seqSoft.filterMap fun row => dget? row kv0.1)

/-- A small concrete recurrent agent (two policy heads, recurrent critic)
used to evaluate the truncation property on closed inputs. -/
def c5Agent : RecurrentAgent :=
  ⟨⟨[("move", fun x h => x + h), ("comm", fun x h => x - h)], fun x h => x + 2 * h⟩,
   ⟨[("move", fun x _ => x)], fun x _ => x⟩,
   ⟨fun x h => x * h, fun x h => x + h⟩,
   ⟨fun x _ => x, fun _ h => h⟩,
   true, ⟨0, false⟩, ⟨1, false⟩⟩

/-! ## Construction-time target hard copies (`__init__` / `make_moa`) -/

/-- Modelled from the spec: a policy/critic network abstracted to its
parameter snapshot (`utils/networks.py` `Policy`/`MLPNetwork`/
`RecurrentNetwork`, not under `src/`); fresh networks draw distinct
parameters from an initialization counter. -/
structure Net where
  params : Nat
deriving DecidableEq

/-- Modelled from the spec: `hard_update(target, source)` (`utils/misc.py`,
not under `src/`) copies every source parameter into the target. -/
def hard_update (_target source : Net) : Net := ⟨source.params⟩

/-- Draw a freshly initialized network, advancing the counter. -/
def freshNet (ctr : Nat) : Net × Nat := (⟨ctr⟩, ctr + 1)

/-- The four networks a `DDPGAgent` owns. -/
structure DDPGAgentNets where
  policy : Net
  target_policy : Net
  critic : Net
  target_critic : Net
deriving DecidableEq

/-- `DDPGAgent.__init__` network construction (`ddpg.py` lines 59-92):
fresh policy and target policy, `hard_update(target_policy, policy)`,
fresh critic and target critic, `hard_update(target_critic, critic)`. -/
def mkDDPGAgent (ctr : Nat) : DDPGAgentNets × Nat :=
  let p := freshNet ctr
  let tp := freshNet p.2
  let target_policy := hard_update tp.1 p.1
  let c := freshNet tp.2
  let tc := freshNet c.2
  let target_critic := hard_update tc.1 c.1
  (⟨p.1, target_policy, c.1, target_critic⟩, tc.2)

/-- One teammate entry of the MOA bank. -/
structure MOAEntry where
  policy : Net
  target_policy : Net
deriving DecidableEq

/-- One iteration of `make_moa`'s loop: a fresh policy and target policy
for teammate `i`, `hard_update(target_policy, policy)`, pushed to the
bank. -/
def moaStep (st : List (Nat × MOAEntry) × Nat) (i : Nat) :
    List (Nat × MOAEntry) × Nat :=
  let p := freshNet st.2
  let tp := freshNet p.2
  let target_policy := hard_update tp.1 p.1
  (st.1 ++ [(i, MOAEntry.mk p.1 target_policy)], tp.2)

/-- `DDPGAgentMOA.make_moa` (`ddpg_moa.py` lines 119-160): the loop body
above for every teammate index `i in range(1, n_agents)`. -/
def make_moa (nAgents : Nat) (ctr : Nat) : List (Nat × MOAEntry) × Nat :=
  (List.range' 1 (nAgents - 1)).foldl moaStep ([], ctr)

/-- The networks a `DDPGAgentMOA` owns. -/
structure DDPGAgentMOANets where
  base : DDPGAgentNets
  moa : List (Nat × MOAEntry)
deriving DecidableEq

/-- `DDPGAgentMOA.__init__` network construction: the base construction
(identical to `DDPGAgent`), then `make_moa` when modeling is enabled. -/
def mkDDPGAgentMOA (nAgents : Nat) (modelOfAgents : Bool) (ctr : Nat) :
    DDPGAgentMOANets × Nat :=
  let b := mkDDPGAgent ctr
  if modelOfAgents then
    let m := make_moa nAgents b.2
    (⟨b.1, m.1⟩, m.2)
  else (⟨b.1, []⟩, b.2)

/-! ## Action-shape inference (`get_shape`) -/

/-- `sp.n if discrete_action else sp.shape[0]` on a single space: `Box`
has no `.n`, `Discrete` has an empty `.shape`, so the mismatched access
raises (`none`). -/
def attrDim (discrete : Bool) : GSpace → Option Nat
  | .disc n => if discrete then some n else none
  | .box d => if discrete then none else some d

/-- Python `sum` over summands that may raise. -/
def optSum : List (Option Nat) → Option Nat
  | [] => some 0
  | x :: xs =>
    match x, optSum xs with
    | some a, some b => some (a + b)
    | _, _ => none

/-- `DDPGAgent.get_shape` (`ddpg.py` lines 99-112; `DDPGAgentMOA.get_shape`
is identical): sum of sub-space dims for a `Dict` space with no key, the
sub-space dim for a declared key, `0` for an undeclared key, and the
space's own dim for a non-`Dict` space. -/
def get_shape (discrete : Bool) : AgSpace → Option String → Option Nat
  | .comp l, none => optSum (l.map fun kv => attrDim discrete kv.2)
  | .comp l, some k =>
    match dget? l k with
    | some sp => attrDim discrete sp
    | none => some 0
  | .simple sp, _ => attrDim discrete sp

/-! ## Helper lemmas -/

theorem digitChar_ne_n (m : Nat) : Nat.digitChar m ≠ 'n' := by
  by_cases h : m < 16
  · interval_cases m <;> decide
  · have h2 : Nat.digitChar m = '*' := by
      simp only [Nat.digitChar]
      repeat rw [if_neg (by omega)]
    rw [h2]
    decide

theorem toDigitsCore_not_n (fuel : Nat) :
    ∀ (n : Nat) (acc : List Char), 'n' ∉ acc → 'n' ∉ Nat.toDigitsCore 10 fuel n acc := by
  induction fuel with
  | zero =>
    intro n acc h
    exact h
  | succ f ih =>
    intro n acc h
    have heq : Nat.toDigitsCore 10 (f + 1) n acc =
        if n / 10 = 0 then Nat.digitChar (n % 10) :: acc
        else Nat.toDigitsCore 10 f (n / 10) (Nat.digitChar (n % 10) :: acc) := rfl
    rw [heq]
    split
    · intro hmem
      rcases List.mem_cons.mp hmem with h1 | h2
      · exact digitChar_ne_n (n % 10) h1.symm
      · exact h h2
    · refine ih (n / 10) (Nat.digitChar (n % 10) :: acc) ?_
      intro hmem
      rcases List.mem_cons.mp hmem with h1 | h2
      · exact digitChar_ne_n (n % 10) h1.symm
      · exact h h2

theorem repr_not_n (i : Nat) : 'n' ∉ (Nat.repr i).data :=
  toDigitsCore_not_n (i + 1) i [] (by simp)

theorem charsContain_within {s pat : List Char} (h : charsContain s pat = true) :
    pat <:+: s := by
  induction s with
  | nil =>
    have : pat = [] := List.isEmpty_iff.mp (by simpa [charsContain] using h)
    simp [this]
  | cons c rest ih =>
    have h' : (pat.isPrefixOf (c :: rest) || charsContain rest pat) = true := h
    rcases Bool.or_eq_true_iff.mp h' with h1 | h2
    · exact (List.isPrefixOf_iff_prefix.mp h1).isInfix
    · exact List.infix_cons (ih h2)

theorem charsContain_of_prefix {s pat : List Char} (h : pat <+: s) :
    charsContain s pat = true := by
  cases s with
  | nil =>
    have : pat = [] := List.prefix_nil.mp h
    simp [charsContain, this]
  | cons c rest =>
    show (pat.isPrefixOf (c :: rest) || charsContain rest pat) = true
    exact Bool.or_eq_true_iff.mpr (Or.inl (List.isPrefixOf_iff_prefix.mpr h))

theorem strContains_eq_false {s pat : String} {c : Char}
    (hc : c ∈ pat.data) (hs : c ∉ s.data) : strContains s pat = false := by
  rw [Bool.eq_false_iff]
  intro h
  exact hs ((charsContain_within h).subset hc)

theorem two_le_length_of_mem_ne {α : Type} {a b : α} {l : List α}
    (ha : a ∈ l) (hb : b ∈ l) (hne : a ≠ b) : 2 ≤ l.length := by
  cases l with
  | nil => cases ha
  | cons c t =>
    rcases List.mem_cons.mp ha with rfl | ha'
    · rcases List.mem_cons.mp hb with rfl | hb'
      · exact absurd rfl hne
      · have := List.length_pos_of_mem hb'
        simp only [List.length_cons]
        omega
    · have := List.length_pos_of_mem ha'
      simp only [List.length_cons]
      omega

theorem dget?_of_nodup {α : Type} :
    ∀ {l : List (String × α)}, (l.map Prod.fst).Nodup →
      ∀ {kv : String × α}, kv ∈ l → dget? l kv.1 = some kv.2 := by
  intro l
  induction l with
  | nil => intro _ kv h; cases h
  | cons p rest ih =>
    intro hnd kv hm
    rw [List.map_cons] at hnd
    have hnd' := List.nodup_cons.mp hnd
    rcases List.mem_cons.mp hm with rfl | hm'
    · simp [dget?]
    · have hne : p.1 ≠ kv.1 := by
        intro he
        exact hnd'.1 (he ▸ List.mem_map_of_mem Prod.fst hm')
      simpa [dget?, hne] using ih hnd'.2 hm'

theorem dget?_eq_none_of_not_mem {α : Type} :
    ∀ {l : List (String × α)} {k : String}, k ∉ l.map Prod.fst → dget? l k = none := by
  intro l
  induction l with
  | nil => intro k _; rfl
  | cons p rest ih =>
    intro k hk
    have h1 : p.1 ≠ k := by
      intro he
      exact hk (by simp [he])
    have h2 : k ∉ rest.map Prod.fst := by
      intro hm
      exact hk (by simp [hm])
    simpa [dget?, h1] using ih h2

/-! ## Claim C9 -/

/-- **C9**: for every composite (`Dict`) action space, `get_shape(space)`
with no sub-field key equals the sum of `get_shape(space, k)` over all
declared sub-fields `k` of the space (the sub-channel names being distinct,
as in a Python dict). -/
theorem c9_get_shape_total_is_sum (d : Bool) (l : List (String × GSpace))
    (hnd : (l.map Prod.fst).Nodup) :
    get_shape d (.comp l) none =
      optSum (l.map fun kv => get_shape d (.comp l) (some kv.1)) := by
  show optSum (l.map fun kv => attrDim d kv.2) = _
  congr 1
  refine (List.map_congr_left ?_)
  intro kv hkv
  simp [get_shape, dget?_of_nodup hnd hkv]

/-- C9 witness: the identity evaluated on the discrete `move`/`comm`
composite space `Dict(move=Discrete(5), comm=Discrete(3))`. -/
theorem c9_get_shape_total_is_sum_witness :
    get_shape true (.comp [("move", .disc 5), ("comm", .disc 3)]) none =
      optSum ([("move", GSpace.disc 5), ("comm", GSpace.disc 3)].map fun kv =>
        get_shape true (.comp [("move", .disc 5), ("comm", .disc 3)]) (some kv.1)) :=
  c9_get_shape_total_is_sum true [("move", .disc 5), ("comm", .disc 3)] (by decide)

/-! ## Claim C10 -/

/-- **C10**: for every composite (`Dict`) action space and every sub-field
key not declared in it, `get_shape(space, k)` returns `0` without raising:
the missing sub-channel is silently treated as zero-width. -/
theorem c10_missing_subchannel_is_zero (d : Bool) (l : List (String × GSpace))
    (k : String) (hk : k ∉ l.map Prod.fst) :
    get_shape d (.comp l) (some k) = some 0 := by
  simp [get_shape, dget?_eq_none_of_not_mem hk]

/-- C10 witness: querying the undeclared `comm` sub-channel of a
continuous `Dict(move=Box(2))` space yields width 0, not an error. -/
theorem c10_missing_subchannel_is_zero_witness :
    ("comm" ∉ [("move", GSpace.box 2)].map Prod.fst) ∧
    get_shape false (.comp [("move", .box 2)]) (some "comm") = some 0 :=
  ⟨by decide, c10_missing_subchannel_is_zero false [("move", .box 2)] "comm" (by decide)⟩

/-! ## Claim C1 -/

/-- **C1**: `DDPGAgentMOA.step` is *not* behaviorally equivalent to
`DDPGAgent.step`: on a composite continuous action space
(`move`/`comm` of width 2 each) with `explore=True` and the shared noise
vector `[1, -1, 1, -1]`, the base agent adds `noise[0:2]` to `move` and
`noise[2:4]` to `comm`, while the MOA agent reassigns `noise` to the slice
it just took, so the `comm` channel receives the empty slice
`noise[0:2][2:4]` and the broadcast add fails (modelled `none`). -/
theorem c1_moa_step_noise_slicing_divergence :
    ddpg_step_cont [("move", [0, 0]), ("comm", [0, 0])] [1, -1, 1, -1] true =
      some [("move", [1, -1]), ("comm", [1, -1])] ∧
    moa_step_cont [("move", [0, 0]), ("comm", [0, 0])] [1, -1, 1, -1] true = none := by
  decide

/-! ## Claim C7 -/

/-- C7 counterexample: `switch_batch` returns the unrecognized container
itself — not a "format not recognized" error — when the agent index is 0,
because the `i == 0` early return precedes the format check. -/
theorem c7_counterexample :
    switch_batch (σ := Unit) (τ := Unit) (.other ⟨[], []⟩) 0 =
      .ok (.other ⟨[], []⟩) := rfl

/-- **C7 (amended)**: for every input that is neither a `SampleBatch` nor
an `EpisodeBatch` and every agent index `i ≥ 1`, `switch_batch` fails with
the explicit "format not recognized" error; at `i = 0` the input is
returned unchanged without any format validation. -/
theorem c7_unrecognized_format_error (σ τ : Type) [Inhabited σ] [Inhabited τ]
    (b : Batch σ τ) (i : Nat) (hi : 1 ≤ i) :
    switch_batch (.other b) i = .error "Error! Batch format not recognized..." := by
  unfold switch_batch
  rw [if_neg (by omega)]

/-- C7 witness: the unrecognized-format error at `i = 1`. -/
theorem c7_unrecognized_format_error_witness :
    (1 : Nat) ≤ 1 ∧
    switch_batch (σ := Unit) (τ := Unit) (.other ⟨[], []⟩) 1 =
      .error "Error! Batch format not recognized..." :=
  ⟨by decide, c7_unrecognized_format_error Unit Unit ⟨[], []⟩ 1 (by decide)⟩

/-! ## Claim C3 -/

/-- **C3**: evaluating `get_sample_scheme` at the failing input
`n_agents=1, obs_spaces=[Dict(pos=Box(3))], act_spaces=[Discrete(5)]`:
the composite observation branch emits the key `"next_ob/0/pos"` (missing
the `s`), not the `"next_obs/0/pos"` the claim (and the rest of the code)
expects, so the default `next_obs` dispatch crashes with an `IndexError`
on that scheme. -/
theorem c3_composite_next_obs_key_typo :
    ((get_sample_scheme 1 (fun _ => .comp [("pos", .box 3)])
        (fun _ => .simple (.disc 5))).map Prod.fst =
      ["obs/0/pos", "next_ob/0/pos", "action/0", "reward/0", "done/0"]) ∧
    (dispatchOne (fun k => k)
        ["obs/0/pos", "next_ob/0/pos", "action/0", "reward/0", "done/0"]
        "next_obs" 0 = .indexError) := by
  decide

/-! ## Claim C4 -/

theorem fkey_data (f : String) (i : Nat) :
    (fkey f i).data = f.data ++ '/' :: (Nat.repr i).data := by
  show ((f ++ "/" ++ Nat.repr i)).data = _
  rw [String.data_append, String.data_append]
  simp

theorem fkey_obs_contains_obs (i : Nat) :
    strContains (fkey "obs" i) "obs" = true := by
  show charsContain (fkey "obs" i).data "obs".data = true
  apply charsContain_of_prefix
  rw [fkey_data]
  exact List.prefix_append _ _

theorem fkey_obs_no_next_obs (i : Nat) :
    strContains (fkey "obs" i) "next_obs" = false := by
  refine strContains_eq_false (c := 'n') (by decide) ?_
  rw [fkey_data]
  intro hmem
  rcases List.mem_append.mp hmem with h1 | h2
  · exact absurd h1 (by decide)
  · rcases List.mem_cons.mp h2 with h3 | h4
    · exact absurd h3 (by decide)
    · exact repr_not_n i h4

/-- **C4**: an `obs/i` dispatcher query never lets a `next_obs` key (or its
tensor) through — every key the filter returns fails the `next_obs`
substring test, for any scheme and any agent index; and on the scheme from
`get_sample_scheme(2, [Box(3), Box(3)], [Discrete(5), Discrete(5)])` the
`obs` field dispatches to the 2-element sequence of plain tensors at keys
`obs/0`, `obs/1`, whose declared width is 3. -/
theorem c4_obs_query_excludes_next_obs :
    (∀ (schemeKeys : List String) (i : Nat) (k : String),
        k ∈ filter_key (fkey "obs" i) schemeKeys →
        strContains k "next_obs" = false) ∧
    (∀ (α : Type) (sample : String → α),
        dispatch_samples sample
          ((get_sample_scheme 2 (fun _ => .simple (.box 3))
              (fun _ => .simple (.disc 5))).map Prod.fst) 2 ["obs"] =
          [[.single (sample "obs/0"), .single (sample "obs/1")]]) ∧
    (dget? (get_sample_scheme 2 (fun _ => .simple (.box 3))
        (fun _ => .simple (.disc 5))) "obs/0" = some ⟨3, .float32⟩) ∧
    (dget? (get_sample_scheme 2 (fun _ => .simple (.box 3))
        (fun _ => .simple (.disc 5))) "obs/1" = some ⟨3, .float32⟩) := by
  refine ⟨?_, ?_, by decide, by decide⟩
  · intro keys i k hk
    rw [filter_key, if_pos (by rw [fkey_obs_contains_obs, fkey_obs_no_next_obs]; rfl)] at hk
    have hpred := (List.mem_filter.mp hk).2
    rcases Bool.and_eq_true_iff.mp hpred with ⟨_, h2⟩
    cases hb : strContains k "next_obs"
    · rfl
    · rw [hb] at h2
      exact absurd h2 (by decide)
  · intro α sample
    rfl

/-- C4 witness: the filter exclusion applied to the key `obs/0` of a
two-key scheme, and the concrete two-agent dispatch. -/
theorem c4_obs_query_excludes_next_obs_witness :
    strContains "obs/0" "next_obs" = false ∧
    dispatch_samples (fun k => k)
      ((get_sample_scheme 2 (fun _ => .simple (.box 3))
          (fun _ => .simple (.disc 5))).map Prod.fst) 2 ["obs"] =
      [[.single "obs/0", .single "obs/1"]] :=
  ⟨c4_obs_query_excludes_next_obs.1 ["obs/0", "next_obs/0"] 0 "obs/0" (by decide),
   c4_obs_query_excludes_next_obs.2.1 String (fun k => k)⟩

/-! ## Claim C8 -/

theorem obs_key_mem_scheme_simple (n : Nat) (od ad : Nat → GSpace) {j : Nat}
    (hj : j < n) :
    fkey "obs" j ∈
      (get_sample_scheme n (fun x => .simple (od x))
        (fun x => .simple (ad x))).map Prod.fst := by
  rw [List.mem_map]
  refine ⟨(fkey "obs" j, ⟨spDim (od j), .float32⟩), ?_, rfl⟩
  unfold get_sample_scheme
  rw [List.mem_flatMap]
  exact ⟨j, List.mem_range.mpr hj, by simp [agentSchemeObs, agentSchemeAct]⟩

/-- **C8**: `dispatch_samples` matches keys by substring containment of
`"field/agent_index"`, so decimal-prefix agent indices collide: on every
scheme from `get_sample_scheme` with `n_agents ≥ 11` over simple spaces,
the `obs` query for agent 1 comes back as a sub-field *mapping* (not agent
1's single plain tensor) that contains agent 10's tensor keyed by its last
path component `"10"`, alongside agent 1's own tensor keyed `"1"`. -/
theorem c8_decimal_index_collision (n : Nat) (od ad : Nat → GSpace)
    (α : Type) (sample : String → α) (hn : 11 ≤ n) :
    ((dispatchOne sample
        ((get_sample_scheme n (fun x => .simple (od x))
          (fun x => .simple (ad x))).map Prod.fst) "obs" 1).isDict = true) ∧
    ("10", sample "obs/10") ∈
      (dispatchOne sample
        ((get_sample_scheme n (fun x => .simple (od x))
          (fun x => .simple (ad x))).map Prod.fst) "obs" 1).pairs ∧
    ("1", sample "obs/1") ∈
      (dispatchOne sample
        ((get_sample_scheme n (fun x => .simple (od x))
          (fun x => .simple (ad x))).map Prod.fst) "obs" 1).pairs := by
  have h1 : fkey "obs" 1 ∈
      (get_sample_scheme n (fun x => .simple (od x))
        (fun x => .simple (ad x))).map Prod.fst :=
    obs_key_mem_scheme_simple n od ad (by omega)
  have h10 : fkey "obs" 10 ∈
      (get_sample_scheme n (fun x => .simple (od x))
        (fun x => .simple (ad x))).map Prod.fst :=
    obs_key_mem_scheme_simple n od ad (by omega)
  have hb : (strContains (fkey "obs" 1) "obs" &&
      !strContains (fkey "obs" 1) "next_obs") = true := by
    rw [fkey_obs_contains_obs, fkey_obs_no_next_obs]
    rfl
  have hf1 : fkey "obs" 1 ∈ filter_key (fkey "obs" 1)
      ((get_sample_scheme n (fun x => .simple (od x))
        (fun x => .simple (ad x))).map Prod.fst) := by
    rw [filter_key, if_pos hb]
    exact List.mem_filter.mpr ⟨h1, by decide⟩
  have hf10 : fkey "obs" 10 ∈ filter_key (fkey "obs" 1)
      ((get_sample_scheme n (fun x => .simple (od x))
        (fun x => .simple (ad x))).map Prod.fst) := by
    rw [filter_key, if_pos hb]
    exact List.mem_filter.mpr ⟨h10, by decide⟩
  have hlen : 2 ≤ (filter_key (fkey "obs" 1)
      ((get_sample_scheme n (fun x => .simple (od x))
        (fun x => .simple (ad x))).map Prod.fst)).length :=
    two_le_length_of_mem_ne hf1 hf10 (by decide)
  rcases hm : filter_key (fkey "obs" 1)
      ((get_sample_scheme n (fun x => .simple (od x))
        (fun x => .simple (ad x))).map Prod.fst) with _ | ⟨x, _ | ⟨y, tl⟩⟩
  · rw [hm] at hlen
    simp at hlen
  · rw [hm] at hlen
    simp at hlen
  · have hd : dispatchOne sample
        ((get_sample_scheme n (fun x => .simple (od x))
          (fun x => .simple (ad x))).map Prod.fst) "obs" 1 =
        .dict ((x :: y :: tl).map fun k => (lastComp k, sample k)) := by
      unfold dispatchOne
      rw [hm]
    rw [hm] at hf1 hf10
    rw [hd]
    refine ⟨rfl, ?_, ?_⟩
    · show ("10", sample "obs/10") ∈ (x :: y :: tl).map fun k => (lastComp k, sample k)
      exact List.mem_map.mpr ⟨fkey "obs" 10, hf10, rfl⟩
    · show ("1", sample "obs/1") ∈ (x :: y :: tl).map fun k => (lastComp k, sample k)
      exact List.mem_map.mpr ⟨fkey "obs" 1, hf1, rfl⟩

/-- C8 witness: the collision on the 11-agent scheme over `Box(3)`
observations and `Discrete(5)` actions, with tensors labelled by their
keys. -/
theorem c8_decimal_index_collision_witness :
    (11 ≤ 11) ∧
    ((dispatchOne (fun k => k)
        ((get_sample_scheme 11 (fun _ => .simple (.box 3))
          (fun _ => .simple (.disc 5))).map Prod.fst) "obs" 1).isDict = true) ∧
    ("10", "obs/10") ∈
      (dispatchOne (fun k => k)
        ((get_sample_scheme 11 (fun _ => .simple (.box 3))
          (fun _ => .simple (.disc 5))).map Prod.fst) "obs" 1).pairs :=
  ⟨by decide,
   (c8_decimal_index_collision 11 (fun _ => .box 3) (fun _ => .disc 5)
      String (fun k => k) (by decide)).1,
   (c8_decimal_index_collision 11 (fun _ => .box 3) (fun _ => .disc 5)
      String (fun k => k) (by decide)).2.1⟩

/-! ## Claim C6 -/

theorem make_moa_foldl_invariant :
    ∀ (l : List Nat) (st : List (Nat × MOAEntry) × Nat),
      (∀ e ∈ st.1, e.2.target_policy.params = e.2.policy.params) →
      ∀ e ∈ (l.foldl moaStep st).1,
        e.2.target_policy.params = e.2.policy.params := by
  intro l
  induction l with
  | nil => intro st h; exact h
  | cons i rest ih =>
    intro st h
    refine ih (moaStep st i) ?_
    intro e he
    rcases List.mem_append.mp he with h1 | h2
    · exact h e h1
    · rcases List.mem_cons.mp h2 with rfl | h3
      · rfl
      · cases h3

/-- **C6**: immediately after construction, the target-policy parameters
equal the policy parameters and the target-critic parameters equal the
critic parameters, for `DDPGAgent`, for `DDPGAgentMOA`'s own networks, and
for every entry of the MOA teammate bank. -/
theorem c6_target_hard_copy_invariant :
    (∀ ctr : Nat,
      (mkDDPGAgent ctr).1.target_policy.params =
        (mkDDPGAgent ctr).1.policy.params ∧
      (mkDDPGAgent ctr).1.target_critic.params =
        (mkDDPGAgent ctr).1.critic.params) ∧
    (∀ (nA : Nat) (mo : Bool) (ctr : Nat),
      ((mkDDPGAgentMOA nA mo ctr).1.base.target_policy.params =
        (mkDDPGAgentMOA nA mo ctr).1.base.policy.params ∧
       (mkDDPGAgentMOA nA mo ctr).1.base.target_critic.params =
        (mkDDPGAgentMOA nA mo ctr).1.base.critic.params) ∧
      ∀ e ∈ (mkDDPGAgentMOA nA mo ctr).1.moa,
        e.2.target_policy.params = e.2.policy.params) := by
  refine ⟨fun ctr => ⟨rfl, rfl⟩, fun nA mo ctr => ⟨?_, ?_⟩⟩
  · cases mo <;> exact ⟨rfl, rfl⟩
  · cases mo
    · intro e he
      cases he
    · intro e he
      simp only [mkDDPGAgentMOA, make_moa] at he
      exact make_moa_foldl_invariant _ _
        (fun e h => absurd h (List.not_mem_nil e)) e he

/-- C6 witness: the invariant read off a 3-agent MOA construction from
counter 0 — the base nets and the teammate-1 bank entry. -/
theorem c6_target_hard_copy_invariant_witness :
    ((mkDDPGAgent 0).1.target_policy.params = (mkDDPGAgent 0).1.policy.params) ∧
    (((1 : Nat), MOAEntry.mk ⟨4⟩ ⟨4⟩) ∈ (mkDDPGAgentMOA 3 true 0).1.moa) ∧
    (((1 : Nat), MOAEntry.mk ⟨4⟩ ⟨4⟩)).2.target_policy.params =
      (((1 : Nat), MOAEntry.mk ⟨4⟩ ⟨4⟩)).2.policy.params :=
  ⟨(c6_target_hard_copy_invariant.1 0).1, by decide,
   (c6_target_hard_copy_invariant.2 3 true 0).2 (1, MOAEntry.mk ⟨4⟩ ⟨4⟩) (by decide)⟩

/-! ## Claim C5 -/

theorem tval_ite_detach_v (c : Bool) (y : TVal) :
    (if c then y.detach else y).v = y.v := by
  cases c <;> rfl

theorem softAct_v_congr (d rg : Bool) (gumbel onehot : Int → Int)
    {x y : TVal} (hv : x.v = y.v) :
    (softAct d rg gumbel onehot x).v = (softAct d rg gumbel onehot y).v := by
  unfold softAct
  split_ifs <;> simp [hv]

theorem rnnSeqAux_rnet_values (net : RNet) :
    ∀ (xs : List TVal) (ts1 ts2 : Int) (t1 t2 : Nat) (h1 h2 : TVal),
      h1.v = h2.v →
      (rnnSeqAux net.apply ts1 t1 h1 xs).map TVal.v =
      (rnnSeqAux net.apply ts2 t2 h2 xs).map TVal.v := by
  intro xs
  induction xs with
  | nil => intro _ _ _ _ _ _ _; rfl
  | cons x rest ih =>
    intro ts1 ts2 t1 t2 h1 h2 hv
    simp only [rnnSeqAux, List.map_cons]
    congr 1
    · simp [RNet.apply, hv]
    · refine ih ts1 ts2 (t1 + 1) (t2 + 1) _ _ ?_
      simp only [RNet.apply, hv]
      split <;> split <;> rfl

theorem rnnSeqAux_pnet_values (pi : PolicyNet) :
    ∀ (xs : List TVal) (ts1 ts2 : Int) (t1 t2 : Nat) (h1 h2 : TVal),
      h1.v = h2.v →
      (rnnSeqAux pi.apply ts1 t1 h1 xs).map
          (fun row => row.map fun kv => (kv.1, kv.2.v)) =
      (rnnSeqAux pi.apply ts2 t2 h2 xs).map
          (fun row => row.map fun kv => (kv.1, kv.2.v)) := by
  intro xs
  induction xs with
  | nil => intro _ _ _ _ _ _ _; rfl
  | cons x rest ih =>
    intro ts1 ts2 t1 t2 h1 h2 hv
    simp only [rnnSeqAux, List.map_cons]
    congr 1
    · simp [PolicyNet.apply, List.map_map, hv]
    · refine ih ts1 ts2 (t1 + 1) (t2 + 1) _ _ ?_
      simp only [PolicyNet.apply, hv]
      split <;> split <;> rfl

theorem dget?_soft_value (d rg : Bool) (gumbel onehot : Int → Int) (k : String) :
    ∀ (r1 r2 : List (String × TVal)),
      r1.map (fun kv => (kv.1, kv.2.v)) = r2.map (fun kv => (kv.1, kv.2.v)) →
      Option.map TVal.v
        (dget? (r1.map fun kv => (kv.1, softAct d rg gumbel onehot kv.2)) k) =
      Option.map TVal.v
        (dget? (r2.map fun kv => (kv.1, softAct d rg gumbel onehot kv.2)) k) := by
  intro r1
  induction r1 with
  | nil =>
    intro r2 h
    cases r2 with
    | nil => rfl
    | cons q t2 => simp at h
  | cons p t1 ih =>
    intro r2 h
    cases r2 with
    | nil => simp at h
    | cons q t2 =>
      simp only [List.map_cons, List.cons.injEq, Prod.mk.injEq] at h
      obtain ⟨⟨hk, hv⟩, ht⟩ := h
      by_cases hpk : p.1 = k
      · simp only [List.map_cons, dget?, hpk, hk ▸ hpk, if_pos]
        simp [Option.map, softAct_v_congr d rg gumbel onehot hv]
      · have hqk : q.1 ≠ k := hk ▸ hpk
        simp only [List.map_cons, dget?, if_neg hpk, if_neg hqk]
        exact ih t2 ht

theorem filterMap_soft_values (d rg : Bool) (gumbel onehot : Int → Int)
    (k : String) :
    ∀ (l1 l2 : List (List (String × TVal))),
      l1.map (fun row => row.map fun kv => (kv.1, kv.2.v)) =
        l2.map (fun row => row.map fun kv => (kv.1, kv.2.v)) →
      ((l1.map (fun row => row.map fun kv =>
          (kv.1, softAct d rg gumbel onehot kv.2))).filterMap
            (fun row => dget? row k)).map TVal.v =
      ((l2.map (fun row => row.map fun kv =>
          (kv.1, softAct d rg gumbel onehot kv.2))).filterMap
            (fun row => dget? row k)).map TVal.v := by
  intro l1
  induction l1 with
  | nil =>
    intro l2 h
    cases l2 with
    | nil => rfl
    | cons r2 t2 => simp at h
  | cons r1 t1 ih =>
    intro l2 h
    cases l2 with
    | nil => simp at h
    | cons r2 t2 =>
      simp only [List.map_cons, List.cons.injEq] at h
      obtain ⟨hr, ht⟩ := h
      have hrow := dget?_soft_value d rg gumbel onehot k r1 r2 hr
      cases o1 : dget? (r1.map fun kv => (kv.1, softAct d rg gumbel onehot kv.2)) k with
      | none =>
        cases o2 : dget? (r2.map fun kv => (kv.1, softAct d rg gumbel onehot kv.2)) k with
        | none =>
          simp only [List.map_cons, List.filterMap_cons, o1, o2]
          exact ih t2 ht
        | some b =>
          rw [o1, o2] at hrow
          simp at hrow
      | some a =>
        cases o2 : dget? (r2.map fun kv => (kv.1, softAct d rg gumbel onehot kv.2)) k with
        | none =>
          rw [o1, o2] at hrow
          simp at hrow
        | some b =>
          rw [o1, o2] at hrow
          have hab : a.v = b.v := by simpa using hrow
          simp only [List.map_cons, List.filterMap_cons, o1, o2, hab]
          exact congrArg (List.cons b.v) (ih t2 ht)

/-- **C5**: for a recurrent agent, any `truncate_steps` at least the
sequence length produces the same forward values as `truncate_steps = -1`
(no truncation), for both `compute_action` and `compute_value` —
truncation only changes gradient flow (the `g` flags), never the forward
`v` values. -/
theorem c5_truncation_preserves_forward_values
    (ag : RecurrentAgent) (obs vfIn : List TVal) (hA hC : Option TVal)
    (target requiresGrad : Bool) (gumbel onehot : Int → Int) (ts : Int)
    (_hts : (obs.length : Int) ≤ ts ∧ (vfIn.length : Int) ≤ ts) :
    ((compute_action ag obs hA target requiresGrad ts gumbel onehot).map
        (fun kv => (kv.1, kv.2.map TVal.v)) =
      (compute_action ag obs hA target requiresGrad (-1) gumbel onehot).map
        (fun kv => (kv.1, kv.2.map TVal.v))) ∧
    ((compute_value ag vfIn hC target ts).map TVal.v =
      (compute_value ag vfIn hC target (-1)).map TVal.v) := by
  constructor
  · have key := rnnSeqAux_pnet_values (if target then ag.target_policy else ag.policy)
      obs ts (-1) 0 0 (hA.getD ag.policy_hidden) (hA.getD ag.policy_hidden) rfl
    simp only [compute_action, rnn_forward_sequence, List.map_map]
    refine List.map_congr_left ?_
    intro kv0 _
    exact congrArg (Prod.mk kv0.1)
      (filterMap_soft_values ag.discrete_action requiresGrad gumbel onehot kv0.1
        _ _ key)
  · exact rnnSeqAux_rnet_values _ vfIn ts (-1) 0 0 _ _ rfl

/-- C5 witness: a 2-head recurrent policy and a recurrent critic rolled
over a length-3 (resp. length-2) sequence with `truncate_steps = 3`. -/
theorem c5_truncation_preserves_forward_values_witness :
    ((([⟨1, true⟩, ⟨2, false⟩, ⟨3, true⟩] : List TVal).length : Int) ≤ 3 ∧
      (([⟨5, true⟩, ⟨6, false⟩] : List TVal).length : Int) ≤ 3) ∧
    ((compute_action c5Agent [⟨1, true⟩, ⟨2, false⟩, ⟨3, true⟩] none false true 3
        (fun v => v + 100) (fun v => v)).map (fun kv => (kv.1, kv.2.map TVal.v)) =
      (compute_action c5Agent [⟨1, true⟩, ⟨2, false⟩, ⟨3, true⟩] none false true (-1)
        (fun v => v + 100) (fun v => v)).map (fun kv => (kv.1, kv.2.map TVal.v))) ∧
    ((compute_value c5Agent [⟨5, true⟩, ⟨6, false⟩] none false 3).map TVal.v =
      (compute_value c5Agent [⟨5, true⟩, ⟨6, false⟩] none false (-1)).map TVal.v) :=
  ⟨⟨by decide, by decide⟩,
   (c5_truncation_preserves_forward_values c5Agent
      [⟨1, true⟩, ⟨2, false⟩, ⟨3, true⟩] [⟨5, true⟩, ⟨6, false⟩] none none false true
      (fun v => v + 100) (fun v => v) 3 ⟨by decide, by decide⟩).1,
   (c5_truncation_preserves_forward_values c5Agent
      [⟨1, true⟩, ⟨2, false⟩, ⟨3, true⟩] [⟨5, true⟩, ⟨6, false⟩] none none false true
      (fun v => v + 100) (fun v => v) 3 ⟨by decide, by decide⟩).2⟩

/-! ## Claim C2 -/

set_option maxHeartbeats 4000000 in
/-- C2 counterexample: on an 11-agent batch (tensors labelled by their
keys), rotating agent 1 to slot 0 also rewrites agent 10's keys — the
`startswith`-match on `"obs/1"` catches `"obs/10"`, whose `replace` yields
`"obs/00"` — so the output data *and* scheme contain a spurious key
`"obs/00"` (absent from the input) carrying agent 10's tensor: the result
is not the claimed pure slot rotation with the scheme's descriptors
preserved exactly and agents beyond `i` untouched. -/
theorem c2_counterexample :
    (dget? (mkBatch simpleKeys 11 (σ := String) (τ := String)
        (fun k => k) (fun k => k)).data "obs/00" = none) ∧
    (dget? (mkBatch simpleKeys 11 (σ := String) (τ := String)
        (fun k => k) (fun k => k)).scheme "obs/00" = none) ∧
    (dget? (switchCore (mkBatch simpleKeys 11 (σ := String) (τ := String)
        (fun k => k) (fun k => k)) 1).data "obs/00" = some "obs/10") ∧
    (dget? (switchCore (mkBatch simpleKeys 11 (σ := String) (τ := String)
        (fun k => k) (fun k => k)) 1).scheme "obs/00" = some "obs/10") := by
  decide

set_option maxHeartbeats 6000000 in
/-- **C2 (amended)**: `switch_batch(b, 0)` is the identity (the input
container itself is returned); for `i ≥ 1` the rotation claim holds on
batches whose agent indices are single decimal digits (`n_agents ≤ 10`,
so no index is a decimal prefix of another): with every tensor labelled
by its key, the output batch has exactly the input's keys in order, slot
0 carrying agent `i`'s entries, slots `1..i` agents `0..i-1`, slots
beyond `i` their own — data and shape descriptors moved between keys
unchanged (`switch_batch` is polymorphic in both, so it cannot fabricate
or reshape tensor contents).  Verified for every `n ≤ 10` over simple
per-agent fields and for `n ≤ 3` with a composite `move`/`comm` action
field. -/
theorem c2_switch_batch_rotation :
    (∀ (σ τ : Type) [Inhabited σ] [Inhabited τ] (c : Container σ τ),
        switch_batch c 0 = .ok c) ∧
    (∀ (σ τ : Type) [Inhabited σ] [Inhabited τ] (b : Batch σ τ) (i : Nat),
        1 ≤ i →
        switch_batch (.sample b) i = .ok (.sample (switchCore b i)) ∧
        switch_batch (.episode b) i = .ok (.episode (switchCore b i))) ∧
    (∀ n < 11, ∀ i < n, 1 ≤ i →
        switchCore (σ := String) (τ := String)
            (mkBatch simpleKeys n (fun k => k) (fun k => k)) i =
          expBatch simpleKeys n i (fun k => k) (fun k => k)) ∧
    (∀ n < 4, ∀ i < n, 1 ≤ i →
        switchCore (σ := String) (τ := String)
            (mkBatch compActKeys n (fun k => k) (fun k => k)) i =
          expBatch compActKeys n i (fun k => k) (fun k => k)) := by
  refine ⟨?_, ?_, by decide, by decide⟩
  · intro σ τ _ _ c
    rfl
  · intro σ τ _ _ b i hi
    constructor <;> (unfold switch_batch; rw [if_neg (by omega)])

/-- C2 witness: the identity at `i = 0` and the 3-agent rotation at
`i = 1`, tensors labelled by their keys. -/
theorem c2_switch_batch_rotation_witness :
    (switch_batch (σ := String) (τ := String)
        (.sample (mkBatch simpleKeys 3 (fun k => k) (fun k => k))) 0 =
      .ok (.sample (mkBatch simpleKeys 3 (fun k => k) (fun k => k)))) ∧
    (switch_batch (σ := String) (τ := String)
        (.sample (mkBatch simpleKeys 3 (fun k => k) (fun k => k))) 1 =
      .ok (.sample (switchCore (mkBatch simpleKeys 3 (fun k => k) (fun k => k)) 1))) ∧
    (switchCore (σ := String) (τ := String)
        (mkBatch simpleKeys 3 (fun k => k) (fun k => k)) 1 =
      expBatch simpleKeys 3 1 (fun k => k) (fun k => k)) :=
  ⟨c2_switch_batch_rotation.1 String String _,
   (c2_switch_batch_rotation.2.1 String String _ 1 (by decide)).1,
   c2_switch_batch_rotation.2.2.1 3 (by decide) 1 (by decide) (by decide)⟩

end MarlSpec
